import Mathlib

/-!
Verification of the assessment and progress engine of an educational
platform backend (FastAPI + SQLAlchemy service under src/app).

The embedding models:
- the score arithmetic of the complete_quiz route, including the exact
  IEEE-754 binary64 semantics of the Python expression
  int((total_points / max_score) * 100);
- the quiz routes submit_answer and complete_quiz over an explicit
  relational state (quizzes, questions, submissions, answers);
- the ProgressService and SubmissionService operations of
  app/services/exercise_service.py;
- the evaluate_submission route of app/routes/submissions.py, including the
  shadowing of the imported fastapi.status module by the handler's own
  status parameter;
- the KafkaService producer cache and best-effort publish of
  app/services/kafka_service.py.

Timestamps are modelled as natural numbers, JSON answer payloads as strings,
and integer columns as naturals (all reachable values are nonnegative:
points default to 1, scores are validated 0..100).
-/

/-! ## Python binary64 float model

Python evaluates total_points / max_score as correctly rounded IEEE-754
binary64 division, multiplies by 100 (again correctly rounded), and int()
truncates toward zero.  A nonnegative double is represented here as a
mantissa-exponent pair (mant, ex) with value mant * 2 ^ ex; every operation
below is exact integer arithmetic, so the kernel can evaluate it.  The model
is accurate for values of magnitude at least 2 ^ (-200), far below anything
a quiz configuration can reach (subnormal underflow is not modelled). -/

/-- Fuel-driven floor of the base-2 logarithm; structural recursion on the
fuel so that the kernel can evaluate it on literals. -/
def log2fuel : ℕ → ℕ → ℕ
  | 0, _ => 0
  | f + 1, n => if n ≤ 1 then 0 else log2fuel f (n / 2) + 1

/-- Floor of the base-2 logarithm of a positive natural number. -/
def natLog2 (n : ℕ) : ℕ := log2fuel n n

/-- Round the rational N / D to the nearest integer, ties to even
(the IEEE-754 default rounding), computed with integer division. -/
def rheDiv (N D : ℕ) : ℕ :=
  let q := N / D
  let r := N % D
  if 2 * r < D then q
  else if D < 2 * r then q + 1
  else if q % 2 = 0 then q else q + 1

/-- Correctly rounded binary64 division of two nonnegative machine integers,
as Python true division t / m performs it.  Returns (mantissa, exponent). -/
def fdiv (t m : ℕ) : ℕ × ℤ :=
  if t = 0 then (0, 0)
  else
    let e : ℤ := (natLog2 (t * 2 ^ 200 / m) : ℤ) - 200
    let d : ℤ := 52 - e
    let mant := if 0 ≤ d then rheDiv (t * 2 ^ d.toNat) m else rheDiv t (m * 2 ^ (-d).toNat)
    (mant, e - 52)

/-- Correctly rounded binary64 multiplication of a double by the exact
constant 100, as in (total_points / max_score) * 100. -/
def dmul100 (x : ℕ × ℤ) : ℕ × ℤ :=
  let N := x.1 * 100
  let k := natLog2 N
  if k ≤ 52 then (N, x.2)
  else (rheDiv N (2 ^ (k - 52)), x.2 + (k - 52))

/-- Python int() applied to a nonnegative double: truncation toward zero. -/
def dtrunc (x : ℕ × ℤ) : ℕ :=
  if 0 ≤ x.2 then x.1 * 2 ^ x.2.toNat else x.1 / 2 ^ (-x.2).toNat

/-- The exact value of the Python expression int((t / m) * 100) under IEEE-754
binary64 arithmetic; this is the score computation of complete_quiz. -/
def pyScoreCore (t m : ℕ) : ℕ := dtrunc (dmul100 (fdiv t m))

/-- Rational value denoted by a mantissa-exponent pair. -/
def dval (x : ℕ × ℤ) : ℚ := (x.1 : ℚ) * (2 : ℚ) ^ x.2

/-! ## Python string helpers (ASCII fragment)

Models str.lower and str.strip as used by the short_answer grading branch;
restricted to ASCII, which covers the comparison structure the spec
describes. -/

/-- Lowercase one ASCII character as Python str.lower does. -/
def pyLowerChar (c : Char) : Char :=
  if 'A' ≤ c ∧ c ≤ 'Z' then Char.ofNat (c.toNat + 32) else c

/-- Python str.lower over the characters of a string. -/
def pyLower (s : String) : String := ⟨s.data.map pyLowerChar⟩

/-- Python whitespace characters removed by str.strip. -/
def pyIsSpace (c : Char) : Bool :=
  c = ' ' ∨ c = '\t' ∨ c = '\n' ∨ c = '\x0d' ∨ c = '\x0b' ∨ c = '\x0c'

/-- Python str.strip: drop leading and trailing whitespace. -/
def pyStrip (s : String) : String :=
  ⟨((s.data.dropWhile pyIsSpace).reverse.dropWhile pyIsSpace).reverse⟩

/-! ## Relational state for the quiz engine (app/routes/quizzes.py) -/

/-- Row of the quizzes table (fields read by the routes under study). -/
structure Quiz where
  id : ℕ
  passingScore : ℕ
  deriving Repr, DecidableEq

/-- Row of the quiz_questions table. -/
structure QuizQuestion where
  id : ℕ
  quizId : ℕ
  questionType : String
  correctAnswer : String
  points : ℕ
  deriving Repr, DecidableEq

/-- Row of the quiz_submissions table. -/
structure QuizSubmission where
  id : ℕ
  studentId : ℕ
  quizId : ℕ
  completedAt : Option ℕ
  score : Option ℕ
  passed : Bool
  deriving Repr, DecidableEq

/-- Row of the quiz_answers table. -/
structure QuizAnswer where
  submissionId : ℕ
  questionId : ℕ
  answerText : String
  isCorrect : Bool
  pointsEarned : ℕ
  deriving Repr, DecidableEq

/-- The quiz-related tables of the database. -/
structure QuizDB where
  quizzes : List Quiz
  questions : List QuizQuestion
  submissions : List QuizSubmission
  answers : List QuizAnswer
  deriving Repr, DecidableEq

/-- HTTP error outcomes raised by the handlers. -/
inductive HErr where
  | forbidden
  | notFound
  | serverError
  deriving Repr, DecidableEq

/-- Replace the first element satisfying p by x, as the ORM session does when
it flushes a mutation of the row returned by query(...).first(). -/
def replaceFirst {α : Type} (p : α → Bool) (x : α) : List α → List α
  | [] => []
  | a :: as => if p a then x :: as else a :: replaceFirst p x as

/-- The submit_answer handler (POST .../submissions/{id}/answer): looks up the
submission of the current student and the question of the path quiz, deletes
any prior answer for the (submission, question) pair, grades the payload, and
inserts a fresh QuizAnswer row. -/
def submitAnswer (db : QuizDB) (quizId submissionId questionId : ℕ)
    (answerText : String) (userId : ℕ) (role : String) :
    Except HErr (QuizDB × QuizAnswer) :=
  if role ≠ "student" then .error .forbidden
  else
    match db.submissions.find? (fun s => s.id == submissionId && s.studentId == userId) with
    | none => .error .notFound
    | some _ =>
      match db.questions.find? (fun q => q.id == questionId && q.quizId == quizId) with
      | none => .error .notFound
      | some question =>
        let remaining := db.answers.eraseP
          (fun a => a.submissionId == submissionId && a.questionId == questionId)
        let isCorrect :=
          if question.questionType = "multiple_choice" then
            answerText == question.correctAnswer
          else if question.questionType = "true_false" then
            answerText == question.correctAnswer
          else if question.questionType = "short_answer" then
            pyStrip (pyLower answerText) == pyStrip (pyLower question.correctAnswer)
          else false
        let pointsEarned := if isCorrect then question.points else 0
        let dbAnswer : QuizAnswer :=
          ⟨submissionId, questionId, answerText, isCorrect, pointsEarned⟩
        .ok ({ db with answers := remaining ++ [dbAnswer] }, dbAnswer)

/-- The complete_quiz handler (POST .../submissions/{id}/complete): finds the
submission of the current student and the quiz named in the path, sums
points_earned over the submission's answers, sums points over the path quiz's
questions (defaulting the sum to 1 when it is 0, via Python or 1), computes
score = int((total / max) * 100) in binary64 arithmetic, and stores score,
passed = (score >= quiz.passing_score) and the completion timestamp. -/
def completeQuiz (db : QuizDB) (quizId submissionId userId : ℕ) (role : String)
    (now : ℕ) : Except HErr (QuizDB × QuizSubmission) :=
  if role ≠ "student" then .error .forbidden
  else
    match db.submissions.find? (fun s => s.id == submissionId && s.studentId == userId) with
    | none => .error .notFound
    | some submission =>
      match db.quizzes.find? (fun q => q.id == quizId) with
      | none => .error .notFound
      | some quiz =>
        let allAnswers := db.answers.filter (fun a => a.submissionId == submissionId)
        let totalPoints := (allAnswers.map (fun a => a.pointsEarned)).sum
        let maxPoints : List ℕ :=
          (db.questions.filter (fun q => q.quizId == quizId)).map (fun q => q.points)
        let maxScore := if maxPoints.sum = 0 then 1 else maxPoints.sum
        let score := pyScoreCore totalPoints maxScore
        let updated := { submission with
          completedAt := some now
          score := some score
          passed := decide (quiz.passingScore ≤ score) }
        let newSubs := replaceFirst
          (fun s => s.id == submissionId && s.studentId == userId) updated db.submissions
        .ok ({ db with submissions := newSubs }, updated)

/-- Sum of points_earned over the answers of one submission (the numerator of
the complete_quiz score). -/
def submissionEarnedPoints (db : QuizDB) (submissionId : ℕ) : ℕ :=
  ((db.answers.filter (fun a => a.submissionId == submissionId)).map
    (fun a => a.pointsEarned)).sum

/-- Sum of points over the questions of one quiz (the raw denominator of the
complete_quiz score, before the or-1 default). -/
def quizMaxPoints (db : QuizDB) (quizId : ℕ) : ℕ :=
  ((db.questions.filter (fun q => q.quizId == quizId)).map (fun q => q.points)).sum

/-- Overwrite the quiz reference of a quiz submission row. -/
def setSubQuizId (newQuizId : ℕ) (s : QuizSubmission) : QuizSubmission :=
  { s with quizId := newQuizId }

/-- Observable result of a completion: the stored score and passed flag. -/
def completionResult (r : Except HErr (QuizDB × QuizSubmission)) :
    Except HErr (Option ℕ × Bool) :=
  r.map (fun p => (p.2.score, p.2.passed))

/-! ## Progress tracker (ProgressService in app/services/exercise_service.py) -/

/-- Row of the progress table. -/
structure Progress where
  studentId : ℕ
  exerciseId : ℕ
  status : String
  attempts : ℕ
  bestScore : Option ℕ
  completedAt : Option ℕ
  deriving Repr, DecidableEq

/-- ProgressService.create_progress: a fresh row with status in_progress and
the column defaults attempts = 0, best_score and completed_at null. -/
def createProgress (studentId exerciseId : ℕ) : Progress :=
  { studentId := studentId
    exerciseId := exerciseId
    status := "in_progress"
    attempts := 0
    bestScore := none
    completedAt := none }

/-- The best_score update of ProgressService.update_progress: overwrite only
when a score is supplied and it strictly exceeds the stored best (or none is
stored). -/
def newBestScore (score stored : Option ℕ) : Option ℕ :=
  match score, stored with
  | some s, none => some s
  | some s, some b => if b < s then some s else some b
  | none, b => b

/-- The mutation that ProgressService.update_progress applies to the row it
found or created: set status verbatim, increment attempts, raise best_score
if a strictly greater score is supplied, and stamp completed_at when the
incoming status is the string completed. -/
def updateProgressRow (p : Progress) (status : String) (score : Option ℕ)
    (now : ℕ) : Progress :=
  { p with
    status := status
    attempts := p.attempts + 1
    bestScore := newBestScore score p.bestScore
    completedAt := if status = "completed" then some now else p.completedAt }

/-- ProgressService.update_progress for a fixed (student, exercise) pair:
upsert semantics on an optional row. -/
def updateProgress (p? : Option Progress) (studentId exerciseId : ℕ)
    (status : String) (score : Option ℕ) (now : ℕ) : Progress :=
  updateProgressRow (p?.getD (createProgress studentId exerciseId)) status score now

/-- One call to update_progress: the status and optional score passed in, and
the wall-clock time of the call. -/
structure ProgressCall where
  status : String
  score : Option ℕ
  now : ℕ
  deriving Repr, DecidableEq

/-- Run a sequence of update_progress calls against a fixed (student,
exercise) pair, starting from an optional existing row. -/
def runProgressCalls (studentId exerciseId : ℕ) :
    Option Progress → List ProgressCall → Option Progress
  | p?, [] => p?
  | p?, c :: cs =>
    runProgressCalls studentId exerciseId
      (some (updateProgress p? studentId exerciseId c.status c.score c.now)) cs

/-- Maximum of a list of scores, none when the list is empty; this is the
specification-side reading of best_score as the maximum of all scores passed. -/
def maxScore? : List ℕ → Option ℕ
  | [] => none
  | s :: ss =>
    match maxScore? ss with
    | none => some s
    | some b => some (max s b)

/-! ## Exercise submissions (SubmissionService, routes/submissions.py) -/

/-- Row of the exercise_submissions table. -/
structure ExSubmission where
  id : ℕ
  studentId : ℕ
  exerciseId : ℕ
  code : String
  status : String
  score : Option ℕ
  feedback : Option String
  completedAt : Option ℕ
  deriving Repr, DecidableEq

/-- The exercise-related tables touched by evaluate_submission. -/
structure ExDB where
  submissions : List ExSubmission
  progress : List Progress
  deriving Repr, DecidableEq

/-- SubmissionService.update_submission_status: find the submission by id
(returning none when absent), set status, optionally score and feedback, and
stamp completed_at when the new status is the string passing. -/
def updateSubmissionStatus (db : ExDB) (submissionId : ℕ) (statusArg : String)
    (score : Option ℕ) (feedback : Option String) (now : ℕ) :
    Option (ExDB × ExSubmission) :=
  match db.submissions.find? (fun s => s.id == submissionId) with
  | none => none
  | some s =>
    let s4 : ExSubmission := { s with
      status := statusArg
      score := match score with
        | some sc => some sc
        | none => s.score
      feedback := match feedback with
        | some f => some f
        | none => s.feedback
      completedAt := if statusArg = "passing" then some now else s.completedAt }
    some ({ db with submissions := replaceFirst (fun x => x.id == submissionId) s4 db.submissions }, s4)

/-- ProgressService.update_progress at the database level: update the first
row matching the (student, exercise) pair, or create one (appended, then
mutated) when none exists. -/
def updateProgressDB (db : ExDB) (studentId exerciseId : ℕ) (status : String)
    (score : Option ℕ) (now : ℕ) : ExDB :=
  match db.progress.find? (fun p => p.studentId == studentId && p.exerciseId == exerciseId) with
  | some p =>
    { db with progress :=
        (replaceFirst (fun r => r.studentId == studentId && r.exerciseId == exerciseId)
          (updateProgressRow p status score now) db.progress) }
  | none =>
    { db with progress :=
        (db.progress ++
          [updateProgressRow (createProgress studentId exerciseId) status score now]) }

/-! ## Event notifier (KafkaService in app/services/kafka_service.py) -/

/-- The class-level state of KafkaService: the cached producer (identified
abstractly by a number) and the permanent disabled flag. -/
structure KafkaState where
  producer : Option ℕ
  disabled : Bool
  deriving Repr, DecidableEq

/-- Behavior of the transport for one publish call: the result a connection
attempt would have (none models a raised exception), and whether
send_and_wait would succeed. -/
structure Transport where
  connectResult : Option ℕ
  sendOk : Bool
  deriving Repr, DecidableEq

/-- KafkaService.get_producer: returns (producer?, new state, whether a
connection attempt was made).  When disabled it returns none at once; when a
producer is cached it is returned without contacting the transport; otherwise
one connection attempt is made, and a failure sets the permanent disabled
flag. -/
def getProducer (st : KafkaState) (tr : Transport) : Option ℕ × KafkaState × Bool :=
  if st.disabled then (none, st, false)
  else
    match st.producer with
    | some p => (some p, st, false)
    | none =>
      match tr.connectResult with
      | some p => (some p, { st with producer := some p }, true)
      | none => (none, { producer := none, disabled := true }, true)

/-- The body of KafkaService.publish_event before its try/except: obtain a
producer (returning early when none) and send, where a send failure is an
exception (error).  The state component records the class-level state as it
stands when the body finishes or raises. -/
def publishEventBody (st : KafkaState) (tr : Transport) :
    Except Unit Unit × KafkaState × Bool :=
  let (prod, st1, attempted) := getProducer st tr
  match prod with
  | none => (.ok (), st1, attempted)
  | some _ => (if tr.sendOk then .ok () else .error (), st1, attempted)

/-- KafkaService.publish_event: the whole body runs inside try/except
Exception, so any transport error is logged and swallowed; the call always
returns, leaving only the class-level state (and the count of connection
attempts, kept for the temporal claims). -/
def publishEvent (st : KafkaState) (tr : Transport) : KafkaState × Bool :=
  ((publishEventBody st tr).2.1, (publishEventBody st tr).2.2)

/-- Run a sequence of publish_event calls, counting connection attempts. -/
def runPublishes (st : KafkaState) : List Transport → KafkaState × ℕ
  | [] => (st, 0)
  | tr :: trs =>
    let step := publishEvent st tr
    let rest := runPublishes step.1 trs
    (rest.1, (if step.2 then 1 else 0) + rest.2)

/-! ## The evaluate_submission route (PUT /api/submissions/{id}/evaluate) -/

/-- Attribute lookup on the handler's status argument: the handler's own
parameter status is a str and shadows the imported fastapi.status module, so
looking up HTTP_404_NOT_FOUND or HTTP_500_INTERNAL_SERVER_ERROR on it raises
AttributeError, modelled as none. -/
def strStatusAttr (statusValue : String) (attrName : String) : Option ℕ := none

/-- Outcome of a route handler as the HTTP client sees it. -/
inductive RouteOutcome where
  | ok (sub : ExSubmission)
  | clientError (code : ℕ)
  | serverError
  deriving Repr, DecidableEq

/-- The evaluate_submission handler: on a missing submission id it tries to
raise HTTPException(status_code=status.HTTP_404_NOT_FOUND, ...), but the
parameter status (the new submission status string) shadows the fastapi
status module, so the attribute access raises AttributeError; the except
Exception handler then evaluates status.HTTP_500_INTERNAL_SERVER_ERROR,
raising AttributeError again, and the unhandled exception surfaces as a
generic 500 server error.  On the happy path it updates the submission, the
progress rollup, and publishes two events whose transport failures are
swallowed. -/
def evaluateSubmission (db : ExDB) (kst : KafkaState) (submissionId : ℕ)
    (statusArg : String) (score : Option ℕ) (feedback : Option String)
    (now : ℕ) (tr1 tr2 : Transport) : RouteOutcome × ExDB × KafkaState :=
  match db.submissions.find? (fun s => s.id == submissionId) with
  | none =>
    (match strStatusAttr statusArg "HTTP_404_NOT_FOUND" with
     | some c => (.clientError c, db, kst)
     | none =>
       match strStatusAttr statusArg "HTTP_500_INTERNAL_SERVER_ERROR" with
       | some c => (.serverError, db, kst)
       | none => (.serverError, db, kst))
  | some submission =>
    match updateSubmissionStatus db submissionId statusArg score feedback now with
    | none => (.serverError, db, kst)
    | some (db1, updated) =>
      let db2 := updateProgressDB db1 submission.studentId submission.exerciseId
        statusArg score now
      let step1 := publishEvent kst tr1
      let step2 := publishEvent step1.1 tr2
      (.ok updated, db2, step2.1)

/-- Status carried by a successful route outcome, none for errors. -/
def outcomeStatus : RouteOutcome → Option String
  | .ok sub => some sub.status
  | .clientError _ => none
  | .serverError => none

/-- Combine a stored best_score with an optional incoming score, keeping the
maximum; this is the effect one update_progress call has on best_score. -/
def mergeBest : Option ℕ → Option ℕ → Option ℕ
  | b, none => b
  | none, some s => some s
  | some b, some s => some (max b s)

/-! ## Numeric lemmas for the binary64 model -/

set_option maxRecDepth 2000

theorem log2fuel_spec : ∀ f n, 0 < n → n ≤ f →
    2 ^ log2fuel f n ≤ n ∧ n < 2 ^ (log2fuel f n + 1) := by
  intro f
  induction f with
  | zero => intro n h1 h2; omega
  | succ f ih =>
    intro n h1 h2
    by_cases hn : n ≤ 1
    · have hn1 : n = 1 := by omega
      simp [log2fuel, hn, hn1]
    · have h2c : n / 2 ≤ f := by omega
      have h1c : 0 < n / 2 := by omega
      obtain ⟨a, b⟩ := ih (n / 2) h1c h2c
      have ha : 2 ^ (log2fuel f (n / 2) + 1) ≤ n := by
        rw [pow_succ]
        have := Nat.mul_le_mul_right 2 a
        omega
      have hb : n < 2 ^ (log2fuel f (n / 2) + 1 + 1) := by
        rw [pow_succ]
        have := Nat.mul_le_mul_right 2 b
        omega
      simp only [log2fuel, if_neg hn]
      exact ⟨ha, hb⟩

theorem natLog2_spec (n : ℕ) (h : 0 < n) :
    2 ^ natLog2 n ≤ n ∧ n < 2 ^ (natLog2 n + 1) :=
  log2fuel_spec n n h le_rfl

theorem rheDiv_err (N D : ℕ) (hD : 0 < D) :
    |(rheDiv N D : ℚ) - (N : ℚ) / (D : ℚ)| ≤ 1 / 2 := by
  have hDQ : (0 : ℚ) < D := by exact_mod_cast hD
  have hdm := Nat.div_add_mod N D
  have hdmQ : (D : ℚ) * ((N / D : ℕ) : ℚ) + ((N % D : ℕ) : ℚ) = (N : ℚ) := by
    exact_mod_cast hdm
  have hkey : (N : ℚ) / D = ((N / D : ℕ) : ℚ) + ((N % D : ℕ) : ℚ) / D := by
    rw [← hdmQ]
    field_simp
    ring
  have hr0 : (0 : ℚ) ≤ ((N % D : ℕ) : ℚ) / D := by positivity
  rw [hkey]
  simp only [rheDiv]
  split_ifs with c1 c2 c3
  · have hhalf : ((N % D : ℕ) : ℚ) / D ≤ 1 / 2 := by
      rw [div_le_div_iff₀ hDQ (by norm_num : (0:ℚ) < 2)]
      have hc : ((2 * (N % D) : ℕ) : ℚ) ≤ (D : ℚ) := by exact_mod_cast c1.le
      push_cast at hc
      linarith
    rw [abs_le]
    constructor <;> linarith
  · have hhalf : 1 / 2 ≤ ((N % D : ℕ) : ℚ) / D := by
      rw [div_le_div_iff₀ (by norm_num : (0:ℚ) < 2) hDQ]
      have hc : (D : ℚ) ≤ ((2 * (N % D) : ℕ) : ℚ) := by exact_mod_cast c2.le
      push_cast at hc
      linarith
    have hlt : ((N % D : ℕ) : ℚ) / D < 1 := by
      rw [div_lt_one hDQ]
      exact_mod_cast Nat.mod_lt N hD
    push_cast
    rw [abs_le]
    constructor <;> linarith
  · have heq : ((N % D : ℕ) : ℚ) / D = 1 / 2 := by
      rw [div_eq_div_iff hDQ.ne' (by norm_num : (2:ℚ) ≠ 0)]
      have hnc : 2 * (N % D) = D := by omega
      have hc : ((2 * (N % D) : ℕ) : ℚ) = (D : ℚ) := by exact_mod_cast hnc
      push_cast at hc
      linarith
    rw [abs_le]
    constructor <;> linarith
  · have heq : ((N % D : ℕ) : ℚ) / D = 1 / 2 := by
      rw [div_eq_div_iff hDQ.ne' (by norm_num : (2:ℚ) ≠ 0)]
      have hnc : 2 * (N % D) = D := by omega
      have hc : ((2 * (N % D) : ℕ) : ℚ) = (D : ℚ) := by exact_mod_cast hnc
      push_cast at hc
      linarith
    push_cast
    rw [abs_le]
    constructor <;> linarith

theorem dval_nonneg (x : ℕ × ℤ) : 0 ≤ dval x := by
  have : (0 : ℚ) < (2 : ℚ) ^ x.2 := zpow_pos (by norm_num) _
  simp only [dval]
  positivity

theorem rnd_core (q : ℚ) (e : ℤ) (Nd Dd : ℕ) (hDd : 0 < Dd)
    (hval : (Nd : ℚ) / (Dd : ℚ) = q * (2 : ℚ) ^ ((52 : ℤ) - e))
    (he1 : (2 : ℚ) ^ e ≤ q) :
    |(rheDiv Nd Dd : ℚ) * (2 : ℚ) ^ (e - 52) - q| ≤ q * (2 : ℚ) ^ (-53 : ℤ) := by
  have h2ne : (2 : ℚ) ≠ 0 := by norm_num
  have hpow : (0 : ℚ) < (2 : ℚ) ^ (e - 52) := zpow_pos (by norm_num) _
  have herr := rheDiv_err Nd Dd hDd
  rw [hval] at herr
  have hid : q * (2 : ℚ) ^ ((52 : ℤ) - e) * (2 : ℚ) ^ (e - 52) = q := by
    rw [mul_assoc, ← zpow_add₀ h2ne]
    norm_num
  have hsplit : (rheDiv Nd Dd : ℚ) * (2 : ℚ) ^ (e - 52) - q
      = ((rheDiv Nd Dd : ℚ) - q * (2 : ℚ) ^ ((52 : ℤ) - e)) * (2 : ℚ) ^ (e - 52) := by
    rw [sub_mul, hid]
  rw [hsplit, abs_mul, abs_of_pos hpow]
  calc |(rheDiv Nd Dd : ℚ) - q * (2 : ℚ) ^ ((52 : ℤ) - e)| * (2 : ℚ) ^ (e - 52)
      ≤ (1 / 2) * (2 : ℚ) ^ (e - 52) := mul_le_mul_of_nonneg_right herr hpow.le
    _ = (2 : ℚ) ^ ((-1 : ℤ)) * (2 : ℚ) ^ (e - 52) := by
        rw [zpow_neg_one]
        norm_num
    _ = (2 : ℚ) ^ e * (2 : ℚ) ^ (-53 : ℤ) := by
        rw [← zpow_add₀ h2ne, ← zpow_add₀ h2ne]
        ring_nf
    _ ≤ q * (2 : ℚ) ^ (-53 : ℤ) :=
        mul_le_mul_of_nonneg_right he1 (zpow_pos (by norm_num) _).le

theorem fdiv_err (t m : ℕ) (ht : 0 < t) (hm : 0 < m) (hbig : m ≤ 2 ^ 200 * t) :
    |dval (fdiv t m) - (t : ℚ) / m| ≤ (t : ℚ) / m * (2 : ℚ) ^ (-53 : ℤ) := by
  have h2ne : (2 : ℚ) ≠ 0 := by norm_num
  have hmQ : (0 : ℚ) < m := by exact_mod_cast hm
  have htQ : (0 : ℚ) < t := by exact_mod_cast ht
  have hN200pos : 0 < t * 2 ^ 200 / m := by
    apply Nat.div_pos _ hm
    calc m ≤ 2 ^ 200 * t := hbig
      _ = t * 2 ^ 200 := by ring
  obtain ⟨hk1, hk2⟩ := natLog2_spec _ hN200pos
  set k := natLog2 (t * 2 ^ 200 / m) with hkdef
  set N200 := t * 2 ^ 200 / m with hN200def
  have h1 : N200 * m ≤ t * 2 ^ 200 := Nat.div_mul_le_self _ _
  have h2 : t * 2 ^ 200 < (N200 + 1) * m := by
    calc t * 2 ^ 200 = m * N200 + t * 2 ^ 200 % m := (Nat.div_add_mod _ _).symm
      _ < m * N200 + m := by
          have := Nat.mod_lt (t * 2 ^ 200) hm
          omega
      _ = (N200 + 1) * m := by ring
  have h1Q : (N200 : ℚ) * m ≤ (t : ℚ) * 2 ^ (200 : ℕ) := by exact_mod_cast h1
  have h2Q : (t : ℚ) * 2 ^ (200 : ℕ) < ((N200 : ℚ) + 1) * m := by exact_mod_cast h2
  have hk1Q : ((2 : ℚ) ^ (k : ℕ)) ≤ (N200 : ℚ) := by exact_mod_cast hk1
  have hk2Q : ((N200 : ℚ) + 1) ≤ (2 : ℚ) ^ (k + 1 : ℕ) := by exact_mod_cast hk2
  have hcast200 : ((2 : ℚ) ^ (200 : ℤ)) = (2 : ℚ) ^ (200 : ℕ) := by
    rw [show ((200 : ℤ)) = ((200 : ℕ) : ℤ) by norm_num, zpow_natCast]
  have hcastk : ((2 : ℚ) ^ ((k : ℕ) : ℤ)) = (2 : ℚ) ^ (k : ℕ) := zpow_natCast 2 k
  have hqlow : (2 : ℚ) ^ ((k : ℤ) - 200) ≤ (t : ℚ) / m := by
    rw [zpow_sub₀ h2ne, div_le_div_iff₀ (zpow_pos (by norm_num) _) hmQ]
    rw [hcast200, hcastk]
    calc (2 : ℚ) ^ (k : ℕ) * m ≤ (N200 : ℚ) * m :=
          mul_le_mul_of_nonneg_right hk1Q hmQ.le
      _ ≤ (t : ℚ) * 2 ^ (200 : ℕ) := h1Q
  simp only [fdiv, if_neg ht.ne']
  by_cases hd : (0 : ℤ) ≤ 52 - ((k : ℤ) - 200)
  · simp only [if_pos hd, dval]
    have hNdQ : ((t * 2 ^ ((52 - ((k : ℤ) - 200)).toNat) : ℕ) : ℚ) / (m : ℚ)
        = (t : ℚ) / m * (2 : ℚ) ^ ((52 : ℤ) - ((k : ℤ) - 200)) := by
      push_cast
      rw [← Int.toNat_of_nonneg hd, zpow_natCast]
      field_simp
    exact rnd_core ((t : ℚ) / m) ((k : ℤ) - 200) _ m hm hNdQ hqlow
  · simp only [if_neg hd, dval]
    have hDdpos : 0 < m * 2 ^ (-(52 - ((k : ℤ) - 200))).toNat := by positivity
    have hNdQ : ((t : ℕ) : ℚ) / ((m * 2 ^ (-(52 - ((k : ℤ) - 200))).toNat : ℕ) : ℚ)
        = (t : ℚ) / m * (2 : ℚ) ^ ((52 : ℤ) - ((k : ℤ) - 200)) := by
      push_cast
      have hneg : (0 : ℤ) ≤ -(52 - ((k : ℤ) - 200)) := by omega
      have hrw : ((2 : ℚ) ^ ((-(52 - ((k : ℤ) - 200))).toNat : ℕ))
          = (2 : ℚ) ^ (-(52 - ((k : ℤ) - 200))) := by
        rw [← zpow_natCast (2 : ℚ), Int.toNat_of_nonneg hneg]
      rw [hrw, zpow_neg]
      have hz : (2 : ℚ) ^ ((52 : ℤ) - ((k : ℤ) - 200)) ≠ 0 := by
        apply zpow_ne_zero
        norm_num
      field_simp
    exact rnd_core ((t : ℚ) / m) ((k : ℤ) - 200) t _ hDdpos hNdQ hqlow

theorem dmul100_err (x : ℕ × ℤ) :
    |dval (dmul100 x) - 100 * dval x| ≤ 100 * dval x * (2 : ℚ) ^ (-53 : ℤ) := by
  obtain ⟨mant, ex⟩ := x
  have h2ne : (2 : ℚ) ≠ 0 := by norm_num
  by_cases hk : natLog2 (mant * 100) ≤ 52
  · simp only [dmul100, if_pos hk, dval]
    have habs : |((mant * 100 : ℕ) : ℚ) * (2 : ℚ) ^ ex - 100 * ((mant : ℚ) * (2 : ℚ) ^ ex)| = 0 := by
      rw [abs_eq_zero]
      push_cast
      ring
    rw [habs]
    have : (0 : ℚ) < (2 : ℚ) ^ ex := zpow_pos (by norm_num) _
    positivity
  · simp only [dmul100, if_neg hk, dval]
    push_neg at hk
    have hN : 0 < mant * 100 := by
      rcases Nat.eq_zero_or_pos (mant * 100) with h0 | h0
      · rw [h0] at hk
        simp [natLog2, log2fuel] at hk
      · exact h0
    obtain ⟨hk1, hk2⟩ := natLog2_spec _ hN
    set k := natLog2 (mant * 100) with hkdef
    set sh := k - 52 with hshdef
    have hshZ : ((sh : ℕ) : ℤ) = (k : ℤ) - 52 := by omega
    have hDpos : 0 < 2 ^ sh := pow_pos (by norm_num) sh
    have herr := rheDiv_err (mant * 100) (2 ^ sh) hDpos
    push_cast at herr
    have hpow2 : (0 : ℚ) < (2 : ℚ) ^ (ex + ((k : ℤ) - 52)) := zpow_pos (by norm_num) _
    have hshpow : ((2 : ℚ) ^ ((k : ℤ) - 52)) = (2 : ℚ) ^ (sh : ℕ) := by
      rw [← zpow_natCast (2 : ℚ) sh, hshZ]
    have hpowsh : (0 : ℚ) < (2 : ℚ) ^ (sh : ℕ) := by positivity
    have hfact : (100 : ℚ) * ((mant : ℚ) * (2 : ℚ) ^ ex)
        = (((mant : ℚ) * 100) / ((2 : ℚ) ^ (sh : ℕ))) * (2 : ℚ) ^ (ex + ((k : ℤ) - 52)) := by
      rw [zpow_add₀ h2ne, hshpow]
      field_simp
      ring
    have hsplit : ((rheDiv (mant * 100) (2 ^ sh) : ℚ) * (2 : ℚ) ^ (ex + ((k : ℤ) - 52))
          - 100 * ((mant : ℚ) * (2 : ℚ) ^ ex))
        = ((rheDiv (mant * 100) (2 ^ sh) : ℚ) - ((mant : ℚ) * 100) / (2 : ℚ) ^ (sh : ℕ))
          * (2 : ℚ) ^ (ex + ((k : ℤ) - 52)) := by
      rw [sub_mul, hfact]
    rw [hsplit, abs_mul, abs_of_pos hpow2]
    have hk1Q : ((2 : ℚ) ^ (k : ℕ)) ≤ (mant : ℚ) * 100 := by exact_mod_cast hk1
    calc |(rheDiv (mant * 100) (2 ^ sh) : ℚ) - ((mant : ℚ) * 100) / (2 : ℚ) ^ (sh : ℕ)|
          * (2 : ℚ) ^ (ex + ((k : ℤ) - 52))
        ≤ (1 / 2) * (2 : ℚ) ^ (ex + ((k : ℤ) - 52)) := mul_le_mul_of_nonneg_right herr hpow2.le
      _ = (2 : ℚ) ^ ((k : ℤ) - 53) * (2 : ℚ) ^ ex := by
          rw [show (1 : ℚ) / 2 = (2 : ℚ) ^ ((-1 : ℤ)) by rw [zpow_neg_one]; norm_num]
          rw [← zpow_add₀ h2ne, ← zpow_add₀ h2ne]
          ring_nf
      _ ≤ ((mant : ℚ) * 100 * (2 : ℚ) ^ (-53 : ℤ)) * (2 : ℚ) ^ ex := by
          apply mul_le_mul_of_nonneg_right _ (zpow_pos (by norm_num : (0:ℚ) < 2) ex).le
          rw [show (k : ℤ) - 53 = ((k : ℕ) : ℤ) + (-53 : ℤ) by omega, zpow_add₀ h2ne,
            zpow_natCast]
          exact mul_le_mul_of_nonneg_right hk1Q (zpow_pos (by norm_num) _).le
      _ = 100 * ((mant : ℚ) * (2 : ℚ) ^ ex) * (2 : ℚ) ^ (-53 : ℤ) := by ring

theorem dtrunc_eq_floor (x : ℕ × ℤ) : (dtrunc x : ℤ) = ⌊dval x⌋ := by
  obtain ⟨mant, ex⟩ := x
  by_cases hex : (0 : ℤ) ≤ ex
  · simp only [dtrunc, if_pos hex, dval]
    have hz : (2 : ℚ) ^ ex = (2 : ℚ) ^ (ex.toNat : ℕ) := by
      rw [← zpow_natCast (2 : ℚ) ex.toNat, Int.toNat_of_nonneg hex]
    have hrw : (mant : ℚ) * (2 : ℚ) ^ ex = ((mant * 2 ^ ex.toNat : ℕ) : ℚ) := by
      rw [hz]
      push_cast
      ring
    rw [hrw, Int.floor_natCast]
  · simp only [dtrunc, if_neg hex, dval]
    have hpos : 0 < 2 ^ (-ex).toNat := pow_pos (by norm_num) _
    have hposQ : (0 : ℚ) < ((2 ^ (-ex).toNat : ℕ) : ℚ) := by exact_mod_cast hpos
    have hrw : (2 : ℚ) ^ ex = (((2 ^ (-ex).toNat : ℕ) : ℚ))⁻¹ := by
      push_cast
      rw [← zpow_natCast (2 : ℚ), Int.toNat_of_nonneg (by omega : (0 : ℤ) ≤ -ex), ← zpow_neg]
      norm_num
    symm
    rw [Int.floor_eq_iff]
    constructor
    · rw [hrw, ← div_eq_mul_inv, le_div_iff₀ hposQ]
      have h1 : mant / 2 ^ (-ex).toNat * 2 ^ (-ex).toNat ≤ mant := Nat.div_mul_le_self _ _
      exact_mod_cast h1
    · rw [hrw, ← div_eq_mul_inv, div_lt_iff₀ hposQ]
      have h2 : mant < (mant / 2 ^ (-ex).toNat + 1) * 2 ^ (-ex).toNat := by
        have hdm := Nat.div_add_mod mant (2 ^ (-ex).toNat)
        have hmod := Nat.mod_lt mant hpos
        calc mant = 2 ^ (-ex).toNat * (mant / 2 ^ (-ex).toNat) + mant % 2 ^ (-ex).toNat :=
              hdm.symm
          _ < 2 ^ (-ex).toNat * (mant / 2 ^ (-ex).toNat) + 2 ^ (-ex).toNat := by omega
          _ = (mant / 2 ^ (-ex).toNat + 1) * 2 ^ (-ex).toNat := by ring
      exact_mod_cast h2

theorem floor_frac_bound (a m : ℕ) (hm : 0 < m) :
    ((a : ℚ)) / m ≤ (⌊(a : ℚ) / m⌋ : ℚ) + 1 - 1 / m := by
  have hmQ : (0 : ℚ) < m := by exact_mod_cast hm
  set w := (a : ℚ) / m with hw
  have h1 : w < ⌊w⌋ + 1 := Int.lt_floor_add_one w
  have h2 : w * m = a := by
    rw [hw]
    field_simp
  have h3 : (a : ℚ) < ((⌊w⌋ : ℚ) + 1) * m := by
    calc (a : ℚ) = w * m := h2.symm
      _ < ((⌊w⌋ : ℚ) + 1) * m := mul_lt_mul_of_pos_right h1 hmQ
  have h4 : (a : ℤ) < (⌊w⌋ + 1) * m := by exact_mod_cast h3
  have h5 : (a : ℤ) + 1 ≤ (⌊w⌋ + 1) * m := h4
  have h6 : (a : ℚ) + 1 ≤ ((⌊w⌋ : ℚ) + 1) * m := by exact_mod_cast h5
  have h7 : ((⌊w⌋ : ℚ) + 1 - 1 / m) * m = ((⌊w⌋ : ℚ) + 1) * m - 1 := by
    field_simp
  rw [hw, div_le_iff₀ hmQ, h7]
  linarith

theorem pyScoreCore_bounds (t m : ℕ) (hm : 0 < m) (hm2 : m ≤ 2 ^ 20) (htm : t ≤ m) :
    ⌊(100 * (t : ℚ)) / m⌋ - 1 ≤ (pyScoreCore t m : ℤ) ∧
    (pyScoreCore t m : ℤ) ≤ ⌊(100 * (t : ℚ)) / m⌋ := by
  have hmQ : (0 : ℚ) < m := by exact_mod_cast hm
  rcases Nat.eq_zero_or_pos t with ht0 | ht
  · subst ht0
    have hps : pyScoreCore 0 m = 0 := by
      simp [pyScoreCore, fdiv, dmul100, dtrunc, natLog2, log2fuel]
    rw [hps]
    have h0 : (100 * ((0 : ℕ) : ℚ)) / m = 0 := by
      push_cast
      simp
    rw [h0]
    simp
  · have htQ : (0 : ℚ) < t := by exact_mod_cast ht
    have hbig : m ≤ 2 ^ 200 * t := by
      calc m ≤ 2 ^ 20 := hm2
        _ ≤ 2 ^ 200 := Nat.pow_le_pow_right (by norm_num) (by norm_num)
        _ ≤ 2 ^ 200 * t := Nat.le_mul_of_pos_right _ ht
    have herr1 := fdiv_err t m ht hm hbig
    have herr2 := dmul100_err (fdiv t m)
    set u : ℚ := (2 : ℚ) ^ (-53 : ℤ) with hu
    have hupos : 0 < u := zpow_pos (by norm_num) _
    have huinv : u = ((2 : ℚ) ^ (53 : ℕ))⁻¹ := by
      rw [hu, ← zpow_natCast (2 : ℚ) 53, ← zpow_neg]
      norm_num
    have hu1 : u ≤ 1 := by
      rw [huinv]
      norm_num
    set q : ℚ := (t : ℚ) / m with hqdef
    have hq : (0 : ℚ) < q := div_pos htQ hmQ
    have hq1 : q ≤ 1 := by
      rw [hqdef, div_le_one hmQ]
      exact_mod_cast htm
    set x1 := dval (fdiv t m) with hx1
    set x2 := dval (dmul100 (fdiv t m)) with hx2
    have hq1u : q * u ≤ u := by
      have := mul_le_mul_of_nonneg_right hq1 hupos.le
      linarith
    obtain ⟨e1a, e1b⟩ := abs_le.mp herr1
    obtain ⟨e2a, e2b⟩ := abs_le.mp herr2
    have hx1q : x1 ≤ q + u := by linarith
    have h2a : 100 * x1 * u ≤ 100 * (q + u) * u :=
      mul_le_mul_of_nonneg_right (by linarith) hupos.le
    have hqu100 : 100 * q * u ≤ 100 * u := by linarith
    have huu100 : 100 * u * u ≤ 100 * u := by
      have := mul_le_mul_of_nonneg_left hu1 (by linarith : (0 : ℚ) ≤ 100 * u)
      linarith
    have hfinal : |x2 - 100 * q| ≤ 300 * u := by
      have hsum : x2 - 100 * q = (x2 - 100 * x1) + 100 * (x1 - q) := by ring
      have h3 : |x2 - 100 * q| ≤ |x2 - 100 * x1| + 100 * |x1 - q| := by
        calc |x2 - 100 * q| = |(x2 - 100 * x1) + 100 * (x1 - q)| := by rw [hsum]
          _ ≤ |x2 - 100 * x1| + |100 * (x1 - q)| := abs_add _ _
          _ = |x2 - 100 * x1| + 100 * |x1 - q| := by
              rw [abs_mul, abs_of_nonneg (by norm_num : (0 : ℚ) ≤ 100)]
      have h4 : 100 * |x1 - q| ≤ 100 * (q * u) := by
        have := abs_le.mpr ⟨e1a, e1b⟩
        linarith [this]
      have h5 : |x2 - 100 * x1| ≤ 100 * x1 * u := abs_le.mpr ⟨e2a, e2b⟩
      have h6 : 100 * (q + u) * u = 100 * q * u + 100 * u * u := by ring
      linarith
    obtain ⟨ef1, ef2⟩ := abs_le.mp hfinal
    set v : ℚ := (100 * (t : ℚ)) / m with hv
    have hvq : v = 100 * q := by
      rw [hv, hqdef]
      ring
    have heps1 : 300 * u < 1 := by
      rw [huinv]
      norm_num
    have hepsm : 300 * u < 1 / m := by
      have hmle : (m : ℚ) ≤ 2 ^ 20 := by exact_mod_cast hm2
      have h1m : (1 : ℚ) / (2 ^ 20 : ℚ) ≤ 1 / m := by
        apply div_le_div_of_nonneg_left (by norm_num) hmQ hmle
      have h2m : 300 * u < 1 / (2 ^ 20 : ℚ) := by
        rw [huinv]
        norm_num
      linarith
    have hscore : (pyScoreCore t m : ℤ) = ⌊x2⌋ := by
      rw [pyScoreCore, dtrunc_eq_floor, hx2]
    have ef1v : v - 300 * u ≤ x2 := by
      rw [hvq]
      linarith
    have ef2v : x2 ≤ v + 300 * u := by
      rw [hvq]
      linarith
    have hvm : v ≤ (⌊v⌋ : ℚ) + 1 - 1 / m := by
      have hb := floor_frac_bound (100 * t) m hm
      have hcast : ((100 * t : ℕ) : ℚ) = 100 * (t : ℚ) := by push_cast; ring
      rw [hcast] at hb
      exact hb
    have hfloorle : (⌊v⌋ : ℚ) ≤ v := Int.floor_le v
    clear_value u q x1 x2 v
    constructor
    · rw [hscore]
      apply Int.le_floor.mpr
      push_cast
      linarith
    · rw [hscore]
      have hlt : x2 < (⌊v⌋ : ℚ) + 1 := by linarith
      have hfl : ⌊x2⌋ < ⌊v⌋ + 1 := by
        apply Int.floor_lt.mpr
        push_cast
        exact hlt
      omega

/-! ## List and state helper lemmas -/

theorem filter_eraseP_of_le_one {α : Type} (p : α → Bool) :
    ∀ l : List α, (l.filter p).length ≤ 1 → (l.eraseP p).filter p = [] := by
  intro l
  induction l with
  | nil => intro _; rfl
  | cons a l ih =>
    intro h
    by_cases pa : p a
    · rw [List.eraseP_cons_of_pos pa]
      rw [List.filter_cons_of_pos pa] at h
      simp only [List.length_cons] at h
      exact List.eq_nil_of_length_eq_zero (by omega)
    · rw [List.eraseP_cons_of_neg pa, List.filter_cons_of_neg pa]
      rw [List.filter_cons_of_neg pa] at h
      exact ih h

theorem find?_replaceFirst {α : Type} (p : α → Bool) (x : α) (hx : p x = true) :
    ∀ l : List α, ∀ y, l.find? p = some y →
      (replaceFirst p x l).find? p = some x := by
  intro l
  induction l with
  | nil => intro y hy; simp [List.find?] at hy
  | cons a l ih =>
    intro y hy
    by_cases pa : p a
    · simp only [replaceFirst, if_pos pa]
      exact List.find?_cons_of_pos _ hx
    · simp only [replaceFirst, if_neg pa]
      rw [List.find?_cons_of_neg _ pa] at hy
      rw [List.find?_cons_of_neg _ pa]
      exact ih y hy

theorem updateProgressRow_attempts (p : Progress) (st : String) (sc : Option ℕ) (now : ℕ) :
    (updateProgressRow p st sc now).attempts = p.attempts + 1 := rfl

theorem newBestScore_eq_mergeBest (sc b : Option ℕ) :
    newBestScore sc b = mergeBest b sc := by
  rcases sc with _ | s <;> rcases b with _ | b <;> simp [newBestScore, mergeBest]
  by_cases hlt : b < s
  · simp [if_pos hlt, Nat.max_eq_right hlt.le]
  · simp [if_neg hlt, Nat.max_eq_left (by omega : s ≤ b)]

theorem updateProgressRow_bestScore (p : Progress) (st : String) (sc : Option ℕ) (now : ℕ) :
    (updateProgressRow p st sc now).bestScore = mergeBest p.bestScore sc :=
  newBestScore_eq_mergeBest sc p.bestScore

theorem updateProgressRow_status (p : Progress) (st : String) (sc : Option ℕ) (now : ℕ) :
    (updateProgressRow p st sc now).status = st := rfl

theorem updateProgressRow_completedAt (p : Progress) (st : String) (sc : Option ℕ) (now : ℕ) :
    (updateProgressRow p st sc now).completedAt =
      if st = "completed" then some now else p.completedAt := rfl

theorem mergeBest_none_right (b : Option ℕ) : mergeBest b none = b := by
  rcases b with _ | b <;> rfl

theorem mergeBest_none_left (b : Option ℕ) : mergeBest none b = b := by
  rcases b with _ | b <;> rfl

theorem mergeBest_assoc (a b c : Option ℕ) :
    mergeBest (mergeBest a b) c = mergeBest a (mergeBest b c) := by
  rcases a with _ | a <;> rcases b with _ | b <;> rcases c with _ | c <;>
    simp [mergeBest, Nat.max_assoc]

theorem maxScore?_cons_merge (s : ℕ) (l : List ℕ) :
    maxScore? (s :: l) = mergeBest (some s) (maxScore? l) := by
  simp only [maxScore?]
  rcases maxScore? l with _ | b <;> rfl

theorem runProgressCalls_aux (sid eid : ℕ) :
    ∀ (calls : List ProgressCall) (p : Progress),
      ∃ r, runProgressCalls sid eid (some p) calls = some r ∧
        r.attempts = p.attempts + calls.length ∧
        r.bestScore = mergeBest p.bestScore (maxScore? (calls.filterMap fun c => c.score)) := by
  intro calls
  induction calls with
  | nil =>
    intro p
    exact ⟨p, rfl, by simp, by simp [maxScore?, mergeBest_none_right]⟩
  | cons c cs ih =>
    intro p
    obtain ⟨r, hrun, hatt, hbest⟩ := ih (updateProgressRow p c.status c.score c.now)
    refine ⟨r, ?_, ?_, ?_⟩
    · simpa [runProgressCalls, updateProgress] using hrun
    · rw [hatt, updateProgressRow_attempts]
      simp [List.length_cons]
      omega
    · rw [hbest, updateProgressRow_bestScore, mergeBest_assoc]
      congr 1
      rcases hc : c.score with _ | s
      · simp [List.filterMap_cons, hc, mergeBest_none_left]
      · simp only [List.filterMap_cons, hc]
        rw [maxScore?_cons_merge]

/-! ## Claim theorems -/

/-- C2: starting with no Progress row for a fixed (student, exercise) pair,
any sequence of N update_progress calls succeeds with upsert semantics and
leaves attempts = N and best_score = the maximum of all scores passed across
the calls (none when no score was passed); moreover every single call
strictly increases attempts and never lowers a stored best_score. -/
theorem update_progress_sequence_spec (sid eid : ℕ) (calls : List ProgressCall) :
    ((runProgressCalls sid eid none calls).map (fun p => p.attempts)).getD 0 = calls.length
    ∧ (runProgressCalls sid eid none calls).bind (fun p => p.bestScore)
        = maxScore? (calls.filterMap fun c => c.score)
    ∧ (∀ (p : Progress) (c : ProgressCall),
        p.attempts < (updateProgress (some p) sid eid c.status c.score c.now).attempts)
    ∧ (∀ (p : Progress) (c : ProgressCall) (b : ℕ), p.bestScore = some b →
        b ≤ ((updateProgress (some p) sid eid c.status c.score c.now).bestScore).getD 0) := by
  have hmono1 : ∀ (p : Progress) (c : ProgressCall),
      p.attempts < (updateProgress (some p) sid eid c.status c.score c.now).attempts := by
    intro p c
    simp only [updateProgress, Option.getD, updateProgressRow_attempts]
    omega
  have hmono2 : ∀ (p : Progress) (c : ProgressCall) (b : ℕ), p.bestScore = some b →
      b ≤ ((updateProgress (some p) sid eid c.status c.score c.now).bestScore).getD 0 := by
    intro p c b hb
    have hbs : (updateProgress (some p) sid eid c.status c.score c.now).bestScore
        = mergeBest p.bestScore c.score := updateProgressRow_bestScore p _ _ _
    rw [hbs, hb]
    rcases c.score with _ | s
    · simp [mergeBest]
    · simp [mergeBest]
  rcases calls with _ | ⟨c, cs⟩
  · exact ⟨rfl, rfl, hmono1, hmono2⟩
  · have hfirst : runProgressCalls sid eid none (c :: cs)
        = runProgressCalls sid eid
            (some (updateProgressRow (createProgress sid eid) c.status c.score c.now)) cs := rfl
    obtain ⟨r, hrun, hatt, hbest⟩ :=
      runProgressCalls_aux sid eid cs (updateProgressRow (createProgress sid eid) c.status c.score c.now)
    have hp1att : (updateProgressRow (createProgress sid eid) c.status c.score c.now).attempts = 1 := by
      rw [updateProgressRow_attempts]
      rfl
    have hp1best : (updateProgressRow (createProgress sid eid) c.status c.score c.now).bestScore
        = c.score := by
      rw [updateProgressRow_bestScore]
      exact mergeBest_none_left c.score
    refine ⟨?_, ?_, hmono1, hmono2⟩
    · rw [hfirst, hrun]
      show r.attempts = (c :: cs).length
      rw [hatt, hp1att]
      simp only [List.length_cons]
      omega
    · rw [hfirst, hrun]
      show r.bestScore = maxScore? ((c :: cs).filterMap fun c => c.score)
      rw [hbest, hp1best]
      rcases hc : c.score with _ | s
      · simp [List.filterMap_cons, hc, mergeBest_none_left]
      · simp only [List.filterMap_cons, hc]
        rw [maxScore?_cons_merge]

/-- Witness for C2: a concrete call never lowers a stored best_score of 40
when a lower score 35 arrives. -/
theorem update_progress_sequence_spec_witness :
    40 ≤ ((updateProgress (some ⟨1, 5, "in_progress", 3, some 40, none⟩)
        1 5 "failing" (some 35) 7).bestScore).getD 0 :=
  (update_progress_sequence_spec 1 5 []).2.2.2
    ⟨1, 5, "in_progress", 3, some 40, none⟩ ⟨"failing", some 35, 7⟩ 40 rfl

/-- C10: update_progress never clears completed_at: any call whose status is
not the string completed leaves completed_at untouched (both on an existing
row and on the row created by the upsert), while a call with status completed
always rewrites it to the current time. -/
theorem update_progress_completedAt_frame (sid eid : ℕ) (sc : Option ℕ) (now : ℕ) :
    (∀ (p : Progress) (st : String), st ≠ "completed" →
      (updateProgress (some p) sid eid st sc now).completedAt = p.completedAt)
    ∧ (∀ p : Progress,
        (updateProgress (some p) sid eid "completed" sc now).completedAt = some now)
    ∧ (∀ st : String, st ≠ "completed" →
        (updateProgress none sid eid st sc now).completedAt = none)
    ∧ (updateProgress none sid eid "completed" sc now).completedAt = some now := by
  refine ⟨?_, ?_, ?_, ?_⟩
  · intro p st hst
    rw [show (updateProgress (some p) sid eid st sc now).completedAt
        = if st = "completed" then some now else p.completedAt
      from updateProgressRow_completedAt p st sc now]
    exact if_neg hst
  · intro p
    rw [show (updateProgress (some p) sid eid "completed" sc now).completedAt
        = if "completed" = "completed" then some now else p.completedAt
      from updateProgressRow_completedAt p "completed" sc now]
    simp
  · intro st hst
    rw [show (updateProgress none sid eid st sc now).completedAt
        = if st = "completed" then some now else (createProgress sid eid).completedAt
      from updateProgressRow_completedAt (createProgress sid eid) st sc now]
    exact if_neg hst
  · rw [show (updateProgress none sid eid "completed" sc now).completedAt
        = if "completed" = "completed" then some now
          else (createProgress sid eid).completedAt
      from updateProgressRow_completedAt (createProgress sid eid) "completed" sc now]
    simp

/-- Witness for C10: a row completed at time 33 keeps that timestamp through
a later in_progress update. -/
theorem update_progress_completedAt_frame_witness :
    (updateProgress (some ⟨1, 2, "completed", 4, some 9, some 33⟩)
        1 2 "in_progress" none 99).completedAt = some 33 :=
  (update_progress_completedAt_frame 1 2 none 99).1
    ⟨1, 2, "completed", 4, some 9, some 33⟩ "in_progress" (by decide)


/-- C8: once a connection attempt has failed the notifier is permanently
disabled: every later publish call is a no-op making no connection attempt;
the first failure itself makes exactly one attempt and sets the flag; while
healthy, a cached producer is reused without contacting the transport, and
the connection is made lazily on first use and cached. -/
theorem kafka_disable_permanent (st : KafkaState) :
    (∀ trs : List Transport, st.disabled = true → runPublishes st trs = (st, 0))
    ∧ (∀ b : Bool, st.disabled = false → st.producer = none →
        publishEvent st ⟨none, b⟩ = (⟨none, true⟩, true))
    ∧ (∀ (p : ℕ) (tr : Transport), st.disabled = false → st.producer = some p →
        publishEvent st tr = (st, false))
    ∧ (∀ (p : ℕ) (b : Bool),
        publishEvent ⟨none, false⟩ ⟨some p, b⟩ = (⟨some p, false⟩, true)) := by
  refine ⟨?_, ?_, ?_, ?_⟩
  · intro trs hdis
    induction trs with
    | nil => rfl
    | cons tr trs ih =>
      have hstep : publishEvent st tr = (st, false) := by
        simp [publishEvent, publishEventBody, getProducer, hdis]
      simp [runPublishes, hstep, ih]
  · intro b hdis hprod
    obtain ⟨pr, di⟩ := st
    simp at hdis hprod
    subst hdis
    subst hprod
    cases b <;> rfl
  · intro p tr hdis hprod
    obtain ⟨pr, di⟩ := st
    simp at hdis hprod
    subst hdis
    subst hprod
    simp [publishEvent, publishEventBody, getProducer]
  · intro p b
    cases b <;> rfl

/-- Witness for C8: a disabled notifier ignores a sequence of publishes with
healthy and failing transports, making zero connection attempts. -/
theorem kafka_disable_permanent_witness :
    runPublishes ⟨none, true⟩ [⟨some 3, true⟩, ⟨none, false⟩, ⟨some 4, false⟩]
      = (⟨none, true⟩, 0) :=
  (kafka_disable_permanent ⟨none, true⟩).1 [⟨some 3, true⟩, ⟨none, false⟩, ⟨some 4, false⟩] rfl

/-- C3 (evidence of the code bug): when the submission id does not exist,
evaluate_submission surfaces a generic 500 server error, because the handler
parameter status (a str) shadows the fastapi status module and the attribute
lookups HTTP_404_NOT_FOUND and then HTTP_500_INTERNAL_SERVER_ERROR both raise
AttributeError; no submission or progress state is modified.  The claimed 404
NotFound client error is never produced. -/
theorem evaluate_submission_missing_id (db : ExDB) (kst : KafkaState)
    (submissionId : ℕ) (statusArg : String) (score : Option ℕ)
    (feedback : Option String) (now : ℕ) (tr1 tr2 : Transport)
    (habsent : db.submissions.find? (fun s => s.id == submissionId) = none) :
    evaluateSubmission db kst submissionId statusArg score feedback now tr1 tr2
      = (RouteOutcome.serverError, db, kst) := by
  simp [evaluateSubmission, habsent, strStatusAttr]

/-- Witness for C3: evaluating submission id 999 against an empty database
yields the 500 outcome with all state unchanged. -/
theorem evaluate_submission_missing_id_witness :
    evaluateSubmission ⟨[], []⟩ ⟨none, false⟩ 999 "passing" (some 80) none 7
        ⟨some 1, true⟩ ⟨some 1, true⟩
      = (RouteOutcome.serverError, ⟨[], []⟩, ⟨none, false⟩) :=
  evaluate_submission_missing_id ⟨[], []⟩ ⟨none, false⟩ 999 "passing" (some 80) none 7
    ⟨some 1, true⟩ ⟨some 1, true⟩ rfl

theorem find?_pred_true {α : Type} (p : α → Bool) :
    ∀ (l : List α) (a : α), l.find? p = some a → p a = true := by
  intro l
  induction l with
  | nil =>
    intro a h
    simp [List.find?] at h
  | cons x xs ih =>
    intro a h
    by_cases px : p x
    · rw [List.find?_cons_of_pos _ px] at h
      obtain rfl : x = a := by injection h
      exact px
    · rw [List.find?_cons_of_neg _ px] at h
      exact ih a h

theorem updateProgressDB_submissions (db : ExDB) (sid eid : ℕ) (st : String)
    (sc : Option ℕ) (now : ℕ) :
    (updateProgressDB db sid eid st sc now).submissions = db.submissions := by
  simp only [updateProgressDB]
  cases db.progress.find? (fun p => p.studentId == sid && p.exerciseId == eid) <;> rfl

/-- C7: the notifier swallows every transport failure: publish_event is a
total function whose resulting state does not even depend on whether the send
succeeded, and evaluate_submission on an existing submission returns a
success outcome carrying the new status - and stores it - for every
transport behavior, including an unreachable one. -/
theorem publish_event_best_effort (db : ExDB) (kst : KafkaState) (submissionId : ℕ)
    (statusArg : String) (score : Option ℕ) (feedback : Option String) (now : ℕ)
    (tr1 tr2 : Transport) (sub : ExSubmission)
    (hfound : db.submissions.find? (fun s => s.id == submissionId) = some sub) :
    (∀ (st : KafkaState) (tr : Transport),
        publishEvent st tr = publishEvent st ⟨tr.connectResult, true⟩)
    ∧ outcomeStatus
        (evaluateSubmission db kst submissionId statusArg score feedback now tr1 tr2).1
      = some statusArg
    ∧ (((evaluateSubmission db kst submissionId statusArg score feedback now tr1 tr2).2.1.submissions.find?
        (fun x => x.id == submissionId)).map (fun x => x.status)) = some statusArg := by
  refine ⟨?_, ?_, ?_⟩
  · intro st tr
    obtain ⟨pr, di⟩ := st
    obtain ⟨cn, so⟩ := tr
    cases pr <;> cases di <;> cases cn <;> rfl
  · simp only [evaluateSubmission, hfound, updateSubmissionStatus]
    rfl
  · have hp : ((fun x : ExSubmission => x.id == submissionId) sub) = true :=
      find?_pred_true (fun x : ExSubmission => x.id == submissionId) db.submissions sub hfound
    simp only [evaluateSubmission, hfound, updateSubmissionStatus]
    rw [updateProgressDB_submissions]
    have hrep := find?_replaceFirst (fun x : ExSubmission => x.id == submissionId)
      ({ sub with
        status := statusArg
        score := match score with
          | some sc => some sc
          | none => sub.score
        feedback := match feedback with
          | some f => some f
          | none => sub.feedback
        completedAt := if statusArg = "passing" then some now else sub.completedAt })
      hp db.submissions sub hfound
    rw [hrep]
    rfl

/-- Witness for C7: with an unreachable transport (connection fails, send
fails) the evaluation still succeeds and the row carries the new status. -/
theorem publish_event_best_effort_witness :
    outcomeStatus
      (evaluateSubmission ⟨[⟨1, 10, 20, "print(1)", "submitted", none, none, none⟩], []⟩
        ⟨none, false⟩ 1 "passing" (some 95) (some "ok") 7 ⟨none, false⟩ ⟨none, false⟩).1
      = some "passing" :=
  (publish_event_best_effort ⟨[⟨1, 10, 20, "print(1)", "submitted", none, none, none⟩], []⟩
    ⟨none, false⟩ 1 "passing" (some 95) (some "ok") 7 ⟨none, false⟩ ⟨none, false⟩
    ⟨1, 10, 20, "print(1)", "submitted", none, none, none⟩ rfl).2.1

/-- C4: a successful submit_answer leaves exactly one QuizAnswer row for the
(submission, question) pair - the freshly graded record it returns - given
that at most one row existed before (the invariant every call re-establishes,
so it holds after any number of resubmissions); the prior row is deleted and
a new one inserted, so no field of the old record survives. -/
theorem submit_answer_single_row (db : QuizDB) (quizId submissionId questionId : ℕ)
    (answerText : String) (userId : ℕ) (sub : QuizSubmission) (question : QuizQuestion)
    (hsub : db.submissions.find?
      (fun s => s.id == submissionId && s.studentId == userId) = some sub)
    (hques : db.questions.find?
      (fun q => q.id == questionId && q.quizId == quizId) = some question)
    (hinv : (db.answers.filter
      (fun a => a.submissionId == submissionId && a.questionId == questionId)).length ≤ 1) :
    ((submitAnswer db quizId submissionId questionId answerText userId "student").map
        (fun _ => ())) = .ok ()
    ∧ ((submitAnswer db quizId submissionId questionId answerText userId "student").map
        (fun r => r.1.answers.filter
          (fun a => a.submissionId == submissionId && a.questionId == questionId)))
      = ((submitAnswer db quizId submissionId questionId answerText userId "student").map
        (fun r => [r.2])) := by
  have hrole : ¬ (("student" : String) ≠ "student") := by simp
  have herase := filter_eraseP_of_le_one
    (fun a : QuizAnswer => a.submissionId == submissionId && a.questionId == questionId)
    db.answers hinv
  constructor
  · simp only [submitAnswer, if_neg hrole, hsub, hques]
    rfl
  · simp only [submitAnswer, if_neg hrole, hsub, hques, Except.map]
    congr 1
    rw [List.filter_append, herase]
    simp

/-- Witness for C4: resubmitting over an existing answer leaves exactly the
fresh record. -/
theorem submit_answer_single_row_witness :
    ((submitAnswer ⟨[⟨1, 70⟩], [⟨5, 1, "multiple_choice", "a", 3⟩],
        [⟨2, 7, 1, none, none, false⟩], [⟨2, 5, "old", true, 3⟩]⟩
      1 2 5 "b" 7 "student").map
        (fun r => r.1.answers.filter
          (fun a => a.submissionId == 2 && a.questionId == 5)))
      = ((submitAnswer ⟨[⟨1, 70⟩], [⟨5, 1, "multiple_choice", "a", 3⟩],
        [⟨2, 7, 1, none, none, false⟩], [⟨2, 5, "old", true, 3⟩]⟩
      1 2 5 "b" 7 "student").map (fun r => [r.2])) :=
  (submit_answer_single_row ⟨[⟨1, 70⟩], [⟨5, 1, "multiple_choice", "a", 3⟩],
      [⟨2, 7, 1, none, none, false⟩], [⟨2, 5, "old", true, 3⟩]⟩
    1 2 5 "b" 7 ⟨2, 7, 1, none, none, false⟩ ⟨5, 1, "multiple_choice", "a", 3⟩
    rfl rfl (by decide)).2

/-- C5: the grading rule of submit_answer: multiple_choice and true_false
answers are correct exactly when the payload equals the canonical
correct_answer verbatim; short_answer compares after lowercasing and
stripping whitespace on both sides; code answers are never correct; and
points_earned is the question's point value when correct, otherwise 0. -/
theorem submit_answer_grading_spec (db : QuizDB) (quizId submissionId questionId : ℕ)
    (answerText : String) (userId : ℕ) (sub : QuizSubmission) (question : QuizQuestion)
    (hsub : db.submissions.find?
      (fun s => s.id == submissionId && s.studentId == userId) = some sub)
    (hques : db.questions.find?
      (fun q => q.id == questionId && q.quizId == quizId) = some question) :
    (question.questionType = "multiple_choice" →
      (submitAnswer db quizId submissionId questionId answerText userId "student").map
          (fun r => (r.2.isCorrect, r.2.pointsEarned))
        = .ok (answerText == question.correctAnswer,
            if answerText == question.correctAnswer then question.points else 0))
    ∧ (question.questionType = "true_false" →
      (submitAnswer db quizId submissionId questionId answerText userId "student").map
          (fun r => (r.2.isCorrect, r.2.pointsEarned))
        = .ok (answerText == question.correctAnswer,
            if answerText == question.correctAnswer then question.points else 0))
    ∧ (question.questionType = "short_answer" →
      (submitAnswer db quizId submissionId questionId answerText userId "student").map
          (fun r => (r.2.isCorrect, r.2.pointsEarned))
        = .ok (pyStrip (pyLower answerText) == pyStrip (pyLower question.correctAnswer),
            if pyStrip (pyLower answerText) == pyStrip (pyLower question.correctAnswer)
            then question.points else 0))
    ∧ (question.questionType = "code" →
      (submitAnswer db quizId submissionId questionId answerText userId "student").map
          (fun r => (r.2.isCorrect, r.2.pointsEarned))
        = .ok (false, 0)) := by
  have hrole : ¬ (("student" : String) ≠ "student") := by simp
  refine ⟨?_, ?_, ?_, ?_⟩ <;> intro ht <;>
    simp [submitAnswer, if_neg hrole, hsub, hques, ht, Except.map]

/-- Witness for C5: a short_answer payload differing only in case and
surrounding whitespace is graded correct and earns the question's points. -/
theorem submit_answer_grading_spec_witness :
    ((submitAnswer ⟨[⟨1, 70⟩], [⟨5, 1, "short_answer", "  Paris", 2⟩],
        [⟨2, 7, 1, none, none, false⟩], []⟩ 1 2 5 "paris  " 7 "student").map
      (fun r => (r.2.isCorrect, r.2.pointsEarned))) = .ok (true, 2) :=
  (submit_answer_grading_spec ⟨[⟨1, 70⟩], [⟨5, 1, "short_answer", "  Paris", 2⟩],
      [⟨2, 7, 1, none, none, false⟩], []⟩ 1 2 5 "paris  " 7
    ⟨2, 7, 1, none, none, false⟩ ⟨5, 1, "short_answer", "  Paris", 2⟩
    rfl rfl).2.2.1 rfl

/-- C9: complete_quiz never compares the submission's stored quiz reference
with the quiz id in the request path: overwriting every submission's quiz_id
with an arbitrary other value changes neither the outcome nor the stored
score and passed flag, because the denominator and passing threshold come
from the path quiz while the numerator sums the submission's own answers. -/
theorem complete_quiz_cross_quiz (db : QuizDB) (quizId submissionId userId : ℕ)
    (role : String) (now otherQuizId : ℕ) :
    completionResult (completeQuiz
        { db with submissions := db.submissions.map (setSubQuizId otherQuizId) }
        quizId submissionId userId role now)
      = completionResult (completeQuiz db quizId submissionId userId role now) := by
  by_cases hrole : role ≠ "student"
  · simp [completeQuiz, if_pos hrole, completionResult]
  · have hpcomp : ((fun s : QuizSubmission => s.id == submissionId && s.studentId == userId)
        ∘ setSubQuizId otherQuizId)
      = (fun s : QuizSubmission => s.id == submissionId && s.studentId == userId) := by
      funext s
      rfl
    have hmapfind : (db.submissions.map (setSubQuizId otherQuizId)).find?
          (fun s => s.id == submissionId && s.studentId == userId)
        = (db.submissions.find? (fun s => s.id == submissionId && s.studentId == userId)).map
            (setSubQuizId otherQuizId) := by
      rw [List.find?_map, hpcomp]
    rcases hfs : db.submissions.find? (fun s => s.id == submissionId && s.studentId == userId)
      with _ | sub
    · rw [hfs] at hmapfind
      simp only [Option.map] at hmapfind
      simp [completeQuiz, if_neg hrole, hfs, hmapfind, completionResult]
    · rw [hfs] at hmapfind
      simp only [Option.map] at hmapfind
      rcases hfq : db.quizzes.find? (fun q => q.id == quizId) with _ | quiz
      · simp [completeQuiz, if_neg hrole, hfs, hmapfind, hfq, completionResult]
      · simp [completeQuiz, if_neg hrole, hfs, hmapfind, hfq, completionResult, setSubQuizId,
          Except.map]

/-- C6: complete_quiz is idempotent on score: when a first call succeeds, a
second call on the resulting state (same stored answers, questions and
passing threshold) succeeds and stores the same score and passed flag - the
score is a pure function of the stored answer rows and the quiz. -/
theorem complete_quiz_idempotent (db : QuizDB) (quizId submissionId userId now1 now2 : ℕ)
    (db1 : QuizDB) (s1 : QuizSubmission)
    (h1 : completeQuiz db quizId submissionId userId "student" now1 = .ok (db1, s1)) :
    (completeQuiz db1 quizId submissionId userId "student" now2).map
        (fun r => (r.2.score, r.2.passed))
      = .ok (s1.score, s1.passed) := by
  have hrole : ¬ (("student" : String) ≠ "student") := by simp
  rcases hfs : db.submissions.find? (fun s => s.id == submissionId && s.studentId == userId)
    with _ | sub
  · simp [completeQuiz, if_neg hrole, hfs] at h1
  · rcases hfq : db.quizzes.find? (fun q => q.id == quizId) with _ | quiz
    · simp [completeQuiz, if_neg hrole, hfs, hfq] at h1
    · simp only [completeQuiz, if_neg hrole, hfs, hfq, Except.ok.injEq, Prod.mk.injEq] at h1
      obtain ⟨hdb, hs⟩ := h1
      subst hdb
      subst hs
      have hpu : ((fun s : QuizSubmission => s.id == submissionId && s.studentId == userId) sub)
          = true :=
        find?_pred_true (fun s : QuizSubmission => s.id == submissionId && s.studentId == userId)
          db.submissions sub hfs
      have hfs2 := find?_replaceFirst
        (fun s : QuizSubmission => s.id == submissionId && s.studentId == userId)
        ({ sub with
          completedAt := some now1
          score := some (pyScoreCore
            ((List.filter (fun a => a.submissionId == submissionId) db.answers).map
              (fun a => a.pointsEarned)).sum
            (if ((List.filter (fun q => q.quizId == quizId) db.questions).map
                (fun q => q.points)).sum = 0 then 1
             else ((List.filter (fun q => q.quizId == quizId) db.questions).map
                (fun q => q.points)).sum))
          passed := decide (quiz.passingScore ≤ pyScoreCore
            ((List.filter (fun a => a.submissionId == submissionId) db.answers).map
              (fun a => a.pointsEarned)).sum
            (if ((List.filter (fun q => q.quizId == quizId) db.questions).map
                (fun q => q.points)).sum = 0 then 1
             else ((List.filter (fun q => q.quizId == quizId) db.questions).map
                (fun q => q.points)).sum)) })
        hpu db.submissions sub hfs
      simp only [completeQuiz, if_neg hrole]
      rw [hfs2, hfq]
      rfl

set_option maxRecDepth 40000 in
/-- Witness for C6: completing an already-completed submission recomputes the
same score 100 and passed flag. -/
theorem complete_quiz_idempotent_witness :
    (completeQuiz ⟨[⟨1, 70⟩], [⟨1, 1, "true_false", "true", 1⟩],
        [⟨1, 1, 1, some 9, some 100, true⟩], [⟨1, 1, "true", true, 1⟩]⟩
      1 1 1 "student" 11).map (fun r => (r.2.score, r.2.passed))
      = .ok (some 100, true) :=
  complete_quiz_idempotent ⟨[⟨1, 70⟩], [⟨1, 1, "true_false", "true", 1⟩],
      [⟨1, 1, 1, none, none, false⟩], [⟨1, 1, "true", true, 1⟩]⟩ 1 1 1 9 11
    ⟨[⟨1, 70⟩], [⟨1, 1, "true_false", "true", 1⟩],
      [⟨1, 1, 1, some 9, some 100, true⟩], [⟨1, 1, "true", true, 1⟩]⟩
    ⟨1, 1, 1, some 9, some 100, true⟩ rfl

/-- C1 (amended): complete_quiz stores score = int((earned / max) * 100)
computed in IEEE-754 binary64 arithmetic - which lies within {floor - 1,
floor} of the exact floor(100 x earned / max) whenever earned is at most max
and max is at most 2 ^ 20 - together with passed = (score >= passing_score)
and the completion timestamp; the denominator defaults to 1 when the quiz's
questions have total points 0, so a zero-question quiz with no stored
answers yields score 0 and never a division by zero. -/
theorem complete_quiz_score_spec (db : QuizDB) (quizId submissionId userId now : ℕ)
    (sub : QuizSubmission) (quiz : Quiz)
    (hsub : db.submissions.find?
      (fun s => s.id == submissionId && s.studentId == userId) = some sub)
    (hquiz : db.quizzes.find? (fun q => q.id == quizId) = some quiz) :
    ((completeQuiz db quizId submissionId userId "student" now).map
        (fun r => (r.2.score, r.2.passed, r.2.completedAt)))
      = .ok (some (pyScoreCore (submissionEarnedPoints db submissionId)
            (if quizMaxPoints db quizId = 0 then 1 else quizMaxPoints db quizId)),
          decide (quiz.passingScore ≤ pyScoreCore (submissionEarnedPoints db submissionId)
            (if quizMaxPoints db quizId = 0 then 1 else quizMaxPoints db quizId)),
          some now)
    ∧ (quizMaxPoints db quizId = 0 → submissionEarnedPoints db submissionId = 0 →
        pyScoreCore (submissionEarnedPoints db submissionId)
          (if quizMaxPoints db quizId = 0 then 1 else quizMaxPoints db quizId) = 0)
    ∧ (0 < quizMaxPoints db quizId → quizMaxPoints db quizId ≤ 2 ^ 20 →
       submissionEarnedPoints db submissionId ≤ quizMaxPoints db quizId →
        ⌊(100 * (submissionEarnedPoints db submissionId : ℚ)) / (quizMaxPoints db quizId : ℚ)⌋ - 1
          ≤ (pyScoreCore (submissionEarnedPoints db submissionId)
              (if quizMaxPoints db quizId = 0 then 1 else quizMaxPoints db quizId) : ℤ)
        ∧ (pyScoreCore (submissionEarnedPoints db submissionId)
              (if quizMaxPoints db quizId = 0 then 1 else quizMaxPoints db quizId) : ℤ)
          ≤ ⌊(100 * (submissionEarnedPoints db submissionId : ℚ))
              / (quizMaxPoints db quizId : ℚ)⌋) := by
  have hrole : ¬ (("student" : String) ≠ "student") := by simp
  refine ⟨?_, ?_, ?_⟩
  · simp only [completeQuiz, if_neg hrole, hsub, hquiz]
    rfl
  · intro h0 he
    rw [he, if_pos h0]
    rfl
  · intro hpos hbound hle
    rw [if_neg (by omega : ¬ quizMaxPoints db quizId = 0)]
    exact pyScoreCore_bounds (submissionEarnedPoints db submissionId)
      (quizMaxPoints db quizId) hpos hbound hle

/-- Witness for C1: a quiz whose path quiz has no questions completes with
score 0 rather than raising a division-by-zero error. -/
theorem complete_quiz_score_spec_witness :
    pyScoreCore (submissionEarnedPoints ⟨[⟨1, 70⟩], [], [⟨1, 1, 1, none, none, false⟩], []⟩ 1)
      (if quizMaxPoints ⟨[⟨1, 70⟩], [], [⟨1, 1, 1, none, none, false⟩], []⟩ 1 = 0 then 1
       else quizMaxPoints ⟨[⟨1, 70⟩], [], [⟨1, 1, 1, none, none, false⟩], []⟩ 1) = 0 :=
  (complete_quiz_score_spec ⟨[⟨1, 70⟩], [], [⟨1, 1, 1, none, none, false⟩], []⟩ 1 1 1 9
    ⟨1, 1, 1, none, none, false⟩ ⟨1, 70⟩ rfl rfl).2.1 rfl rfl

set_option maxRecDepth 40000 in
/-- Counterexample for C1 as stated: with 29 points earned out of 50,
binary64 arithmetic gives int((29 / 50) * 100) = 57, one below
floor(100 x 29 / 50) = 58, so the stored score is not the exact floor. -/
theorem complete_quiz_floor_counterexample :
    ((completeQuiz ⟨[⟨1, 70⟩],
        [⟨1, 1, "multiple_choice", "a", 29⟩, ⟨2, 1, "multiple_choice", "b", 21⟩],
        [⟨1, 1, 1, none, none, false⟩],
        [⟨1, 1, "a", true, 29⟩, ⟨1, 2, "c", false, 0⟩]⟩ 1 1 1 "student" 9).map
      (fun r => r.2.score)) = .ok (some 57)
    ∧ ⌊(100 * (29 : ℚ)) / 50⌋ = 58 := by
  constructor
  · rfl
  · norm_num
